import Mathlib

/-!
Shallow embedding of i3-aww (src/main.rs), a hotplug-reactive display/workspace
reconciler for the i3 window manager.

Modelling conventions:
* Rust `String` values (output names, command arguments) are modelled as
  `List Char` (abbreviated `Str`).
* Rust `i32` workspace numbers are modelled as `Int`; only equality is ever
  used on them.
* The live connectivity probe `monitor_connected` depends on ambient X server
  state; the pure reconciliation logic receives it as a function
  `conn : Str → Bool`.  The probe itself is modelled separately over an
  explicit query result (`monitor_connected` below).
* The `DashMap<i32, Workspace>` store is modelled as a function
  `Int → Option Workspace` for the get/insert view used by reconciliation,
  and as the list of its entries (in iteration order) for the replay loops.
-/

abbrev Str := List Char

/-- A workspace as reported by i3's `get_workspaces` (the fields main.rs reads). -/
structure I3Workspace where
  num : Int
  output : Str
  focused : Bool
  visible : Bool
deriving DecidableEq

/-- The stored entry: struct `Workspace` in main.rs. -/
structure Workspace where
  focused : Bool
  num : Int
  output : Str
  previous_output : Option Str
  was_focused : Bool
deriving DecidableEq

/-- The `(previous_output, was_focused)` pair computed by the body of the
`adjust_workspaces` loop in main.rs for one snapshot record `w`:
both start empty; if a stored entry exists and the output is unchanged they are
carried forward; if the output changed and the old output probes disconnected
they remember the old output and the old entry's stored focus flag. -/
def adjust_fields (conn : Str → Bool) (store : Int → Option Workspace)
    (w : I3Workspace) : Option Str × Bool :=
  match store w.num with
  | some old_workspace =>
    if w.output = old_workspace.output then
      (old_workspace.previous_output, old_workspace.was_focused)
    else if !conn old_workspace.output then
      (some old_workspace.output, old_workspace.focused)
    else
      (none, false)
  | none => (none, false)

/-- The rebuilt entry inserted by the `adjust_workspaces` loop for record `w`. -/
def adjust_entry (conn : Str → Bool) (store : Int → Option Workspace)
    (w : I3Workspace) : Workspace :=
  { focused := w.focused || w.visible
    num := w.num
    output := w.output
    previous_output := (adjust_fields conn store w).1
    was_focused := (adjust_fields conn store w).2 }

/-- One iteration of the `adjust_workspaces` loop: insert the rebuilt entry. -/
def adjust_step (conn : Str → Bool) (store : Int → Option Workspace)
    (w : I3Workspace) : Int → Option Workspace :=
  fun n => if n = w.num then some (adjust_entry conn store w) else store n

/-- The `adjust_workspaces` closure in main.rs: one reconciliation pass,
folding the per-record insertion over the whole snapshot. -/
def adjust_workspaces (conn : Str → Bool) (snapshot : List I3Workspace)
    (store : Int → Option Workspace) : Int → Option Workspace :=
  snapshot.foldl (adjust_step conn) store

/-- Analysis device for reconciliation runs in which every snapshot record
keeps the tracked entry's output ("all-carry" runs): the entry keeps its
remembered fields and takes the last record's focus flags. -/
def carryEnd (e : Workspace) (f : List I3Workspace) : Workspace :=
  match f.getLast? with
  | none => e
  | some u =>
    { focused := u.focused || u.visible
      num := u.num
      output := u.output
      previous_output := e.previous_output
      was_focused := e.was_focused }

/-- Replay commands issued by the hotplug handler after reconciliation. -/
inductive ReplayCmd where
  | move (num : Int) (output : Str)
  | focus (num : Int)
deriving DecidableEq

/-- First replay loop in main.rs: for every stored entry with a remembered
previous output that now probes connected, a move command. -/
def move_commands (conn : Str → Bool) (entries : List Workspace) : List ReplayCmd :=
  entries.filterMap fun w =>
    match w.previous_output with
    | some output => if conn output then some (ReplayCmd.move w.num output) else none
    | none => none

/-- Second replay loop in main.rs: a focus command for every stored entry with
`was_focused` set whose number is in the pre-change existing-workspace list. -/
def focus_commands (entries : List Workspace) (existing : List Int) : List ReplayCmd :=
  (entries.filter fun w => w.was_focused && existing.contains w.num).map
    fun w => ReplayCmd.focus w.num

/-- Final step of replay in main.rs: re-focus the pre-change focused workspace
when it is still among the existing workspaces. -/
def final_focus (existing : List Int) (focused_workspace : Option Int) : List ReplayCmd :=
  match focused_workspace with
  | some w => if existing.contains w then [ReplayCmd.focus w] else []
  | none => []

/-- The full replay command sequence of the hotplug handler, in issue order:
moves, then per-entry focuses, then the pre-change focused workspace. -/
def replay (conn : Str → Bool) (entries : List Workspace) (existing : List Int)
    (focused_workspace : Option Int) : List ReplayCmd :=
  move_commands conn entries ++ focus_commands entries existing ++
    final_focus existing focused_workspace

/-- The workspace numbers targeted by the focus commands of `cmds`, in order. -/
def focus_targets (cmds : List ReplayCmd) : List Int :=
  cmds.filterMap fun c =>
    match c with
    | ReplayCmd.focus n => some n
    | ReplayCmd.move _ _ => none

/-- struct `MonitorData` in main.rs. -/
structure MonitorData where
  name : Str
  connected : Bool
deriving DecidableEq

/-- struct `MonitorPos` in main.rs. -/
structure MonitorPos where
  name : Str
  args : List Str
deriving DecidableEq

/-- One `--output <name> ...` group of the xrandr invocation built in main.rs:
`enabled` records `--auto` (true) versus `--off` (false), `pos_args` the
positional-directive arguments appended for this output, `primary` whether
`--primary` was appended. -/
structure MonitorCmd where
  name : Str
  enabled : Bool
  pos_args : List Str
  primary : Bool
deriving DecidableEq

/-- The `primary_connected` scan in main.rs: is the configured primary monitor
among the connected outputs? -/
def primary_connected (primary_monitor : Str) (monitor_data : List MonitorData) : Bool :=
  monitor_data.any fun monitor => primary_monitor == monitor.name && monitor.connected

/-- The positional-directive arguments appended for output `name` in main.rs. -/
def pos_args_for (monitor_pos : Option MonitorPos) (name : Str) : List Str :=
  match monitor_pos with
  | some mp => if mp.name == name then mp.args else []
  | none => []

/-- The xrandr argument-building loop of main.rs, with the running
`primary_set` flag explicit; produces one `MonitorCmd` group per monitor. -/
def build_cmds_go (primary_monitor : Str) (monitor_pos : Option MonitorPos) :
    Bool → List MonitorData → List MonitorCmd
  | _, [] => []
  | primary_set, monitor :: rest =>
    if monitor.connected then
      let is_primary := monitor.name == primary_monitor || !primary_set
      { name := monitor.name, enabled := true,
        pos_args := pos_args_for monitor_pos monitor.name,
        primary := is_primary } ::
        build_cmds_go primary_monitor monitor_pos (primary_set || is_primary) rest
    else
      { name := monitor.name, enabled := false, pos_args := [], primary := false } ::
        build_cmds_go primary_monitor monitor_pos primary_set rest

/-- The complete xrandr command built for a probe result (`monitor_data`),
with `primary_set` initialised to whether the primary monitor is connected. -/
def build_monitor_cmds (primary_monitor : Str) (monitor_pos : Option MonitorPos)
    (monitor_data : List MonitorData) : List MonitorCmd :=
  build_cmds_go primary_monitor monitor_pos
    (primary_connected primary_monitor monitor_data) monitor_data

/-- Names of the outputs whose group carries the `--primary` mark, in order. -/
def primary_names (cmds : List MonitorCmd) : List Str :=
  (cmds.filter MonitorCmd.primary).map MonitorCmd.name

/-- Rust `str::split(':')` on a character list: the (always nonempty) list of
segments between colons. -/
def split_on_colon : Str → List Str
  | [] => [[]]
  | c :: rest =>
    if c = ':' then [] :: split_on_colon rest
    else
      match split_on_colon rest with
      | [] => [[c]]
      | p :: ps => (c :: p) :: ps

/-- The characters Rust `str::split_ascii_whitespace` splits on. -/
def is_ascii_whitespace (c : Char) : Bool :=
  c = ' ' || c = '\t' || c = '\n' || c = '\x0c' || c = '\r'

/-- Rust `str::split_ascii_whitespace` on a character list: the maximal runs
of non-whitespace characters, empties discarded. -/
def split_ascii_ws (s : Str) : List Str :=
  (s.splitOnP is_ascii_whitespace).filter fun t => !t.isEmpty

/-- `MonitorPos::parse` in main.rs: take the first two `split(':')` segments;
the name from the first, the whitespace-split arguments from the second;
`none` when there is no second segment. -/
def MonitorPos.parse (data : Str) : Option MonitorPos :=
  match split_on_colon data with
  | name :: args_string :: _ => some { name := name, args := split_ascii_ws args_string }
  | _ => none

/-- An xrandr output record: the fields main.rs reads (`name`, `edid`). -/
structure XOutput where
  name : Str
  edid : Option (List Nat)
deriving DecidableEq

/-- `xrandr_outputs` in main.rs: the display-subsystem query result, with any
error replaced by the empty list (`unwrap_or(vec![])`). -/
def xrandr_outputs (query : Except Str (List XOutput)) : List XOutput :=
  match query with
  | Except.ok outputs => outputs
  | Except.error _ => []

/-- `monitor_connected` in main.rs over an explicit query result: scan the
enumerated outputs; connected iff a name match reports an EDID block. -/
def monitor_connected (query : Except Str (List XOutput)) (name : Str) : Bool :=
  (xrandr_outputs query).any fun output => output.name == name && output.edid.isSome

theorem adjust_step_ne (conn : Str → Bool) (store : Int → Option Workspace)
    (w : I3Workspace) (n : Int) (h : n ≠ w.num) :
    adjust_step conn store w n = store n := by
  simp [adjust_step, h]

theorem adjust_step_self (conn : Str → Bool) (store : Int → Option Workspace)
    (w : I3Workspace) :
    adjust_step conn store w w.num = some (adjust_entry conn store w) := by
  simp [adjust_step]

theorem adjust_frame (conn : Str → Bool) (snapshot : List I3Workspace)
    (store : Int → Option Workspace) (n : Int)
    (h : ∀ v ∈ snapshot, v.num ≠ n) :
    adjust_workspaces conn snapshot store n = store n := by
  induction snapshot generalizing store with
  | nil => rfl
  | cons v rest ih =>
    have hrest : ∀ u ∈ rest, u.num ≠ n := fun u hu => h u (List.mem_cons_of_mem v hu)
    have hv : v.num ≠ n := h v (List.mem_cons_self v rest)
    calc adjust_workspaces conn (v :: rest) store n
        = adjust_workspaces conn rest (adjust_step conn store v) n := rfl
      _ = adjust_step conn store v n := ih (adjust_step conn store v) hrest
      _ = store n := adjust_step_ne conn store v n (Ne.symm hv)

theorem adjust_entry_congr (conn : Str → Bool)
    (store store' : Int → Option Workspace) (w : I3Workspace)
    (h : store w.num = store' w.num) :
    adjust_entry conn store w = adjust_entry conn store' w := by
  simp [adjust_entry, adjust_fields, h]

/-- With pairwise distinct workspace numbers in the snapshot, the entry a
reconciliation pass leaves for a snapshot record `w` is exactly the entry the
loop body rebuilds from the pre-pass store. -/
theorem adjust_get_mem (conn : Str → Bool) (snapshot : List I3Workspace)
    (store : Int → Option Workspace) (w : I3Workspace)
    (hnodup : (snapshot.map I3Workspace.num).Nodup) (hmem : w ∈ snapshot) :
    adjust_workspaces conn snapshot store w.num = some (adjust_entry conn store w) := by
  obtain ⟨l1, l2, rfl⟩ := List.append_of_mem hmem
  rw [List.map_append, List.map_cons] at hnodup
  have h1 := (List.nodup_append.mp hnodup).2.2
  have h2 := (List.nodup_cons.mp (List.nodup_append.mp hnodup).2.1).1
  have hl1 : ∀ v ∈ l1, v.num ≠ w.num := by
    intro v hv heq
    exact h1 (List.mem_map_of_mem I3Workspace.num hv)
      (by rw [heq]; exact List.mem_cons_self _ _)
  have hl2 : ∀ v ∈ l2, v.num ≠ w.num := by
    intro v hv heq
    exact h2 (heq ▸ List.mem_map_of_mem I3Workspace.num hv)
  have hpre : adjust_workspaces conn l1 store w.num = store w.num :=
    adjust_frame conn l1 store w.num hl1
  calc adjust_workspaces conn (l1 ++ w :: l2) store w.num
      = adjust_workspaces conn l2
          (adjust_step conn (adjust_workspaces conn l1 store) w) w.num := by
        simp [adjust_workspaces, List.foldl_append]
    _ = adjust_step conn (adjust_workspaces conn l1 store) w w.num :=
        adjust_frame conn l2 _ w.num hl2
    _ = some (adjust_entry conn (adjust_workspaces conn l1 store) w) :=
        adjust_step_self conn _ w
    _ = some (adjust_entry conn store w) := by
        rw [adjust_entry_congr conn _ store w hpre]

/-- C1: for a snapshot record whose reported output differs from the stored
entry's current output, reconciliation writes an entry whose current output is
the snapshot's output and whose `remembered_output`/`was_focused` are the old
current output and the old entry's stored effective focus when the old output
probes disconnected, and `none`/`false` when the old output probes connected. -/
theorem C1_output_change_update (conn : Str → Bool) (snapshot : List I3Workspace)
    (store : Int → Option Workspace) (w : I3Workspace) (old : Workspace)
    (hnodup : (snapshot.map I3Workspace.num).Nodup) (hmem : w ∈ snapshot)
    (hold : store w.num = some old) (hchange : w.output ≠ old.output) :
    adjust_workspaces conn snapshot store w.num =
      some { focused := w.focused || w.visible
             num := w.num
             output := w.output
             previous_output := if conn old.output then none else some old.output
             was_focused := if conn old.output then false else old.focused } := by
  rw [adjust_get_mem conn snapshot store w hnodup hmem]
  simp only [adjust_entry, adjust_fields, hold, hchange, if_false, if_neg hchange]
  cases h : conn old.output <;> simp

theorem C1_witness :
    (([⟨3, ['B'], true, false⟩] : List I3Workspace).map I3Workspace.num).Nodup ∧
    (⟨3, ['B'], true, false⟩ : I3Workspace) ∈ ([⟨3, ['B'], true, false⟩] : List I3Workspace) ∧
    (fun n => if n = (3 : Int) then some (⟨true, 3, ['A'], none, false⟩ : Workspace) else none) (3 : Int)
      = some (⟨true, 3, ['A'], none, false⟩ : Workspace) ∧
    (['B'] : Str) ≠ ['A'] ∧
    adjust_workspaces (fun _ => false) [⟨3, ['B'], true, false⟩]
      (fun n => if n = 3 then some ⟨true, 3, ['A'], none, false⟩ else none) 3
      = some { focused := true || false, num := 3, output := ['B']
               previous_output := if (fun _ => false) (['A'] : Str) then none else some ['A']
               was_focused := if (fun _ => false) (['A'] : Str) then false else true } :=
  ⟨by decide, by decide, by decide, by decide,
    C1_output_change_update (fun _ => false) [⟨3, ['B'], true, false⟩]
      (fun n => if n = 3 then some ⟨true, 3, ['A'], none, false⟩ else none)
      ⟨3, ['B'], true, false⟩ ⟨true, 3, ['A'], none, false⟩
      (by decide) (by decide) (by decide) (by decide)⟩

/-- C2: reconciliation leaves a `remembered_output` only when it was carried
forward unchanged (snapshot output equal to the stored output) or on a
transition whose prior stored output probes disconnected, in which case it is
that prior output; it is never newly set when the output is unchanged. -/
theorem C2_remembered_only_on_disconnected_transition (conn : Str → Bool)
    (snapshot : List I3Workspace) (store : Int → Option Workspace)
    (w : I3Workspace) (res : Workspace) (o : Str)
    (hnodup : (snapshot.map I3Workspace.num).Nodup) (hmem : w ∈ snapshot)
    (hres : adjust_workspaces conn snapshot store w.num = some res)
    (ho : res.previous_output = some o) :
    ∃ old, store w.num = some old ∧
      ((w.output = old.output ∧ old.previous_output = some o) ∨
        (w.output ≠ old.output ∧ conn old.output = false ∧ o = old.output)) := by
  rw [adjust_get_mem conn snapshot store w hnodup hmem] at hres
  have hres' : res = adjust_entry conn store w := (Option.some.inj hres).symm
  subst hres'
  simp only [adjust_entry] at ho
  unfold adjust_fields at ho
  cases hstore : store w.num with
  | none => rw [hstore] at ho; simp at ho
  | some old =>
    rw [hstore] at ho
    dsimp only at ho
    refine ⟨old, rfl, ?_⟩
    by_cases heq : w.output = old.output
    · rw [if_pos heq] at ho
      exact Or.inl ⟨heq, ho⟩
    · rw [if_neg heq] at ho
      cases hconn : conn old.output with
      | false =>
        rw [hconn] at ho
        simp at ho
        exact Or.inr ⟨heq, rfl, ho.symm⟩
      | true =>
        rw [hconn] at ho
        simp at ho

theorem C2_witness :
    ∃ old, (fun n => if n = (7 : Int) then some (⟨false, 7, ['A'], some ['X'], true⟩ : Workspace) else none) (7 : Int)
        = some old ∧
      (((⟨7, ['A'], false, true⟩ : I3Workspace).output = old.output ∧ old.previous_output = some ['X']) ∨
        ((⟨7, ['A'], false, true⟩ : I3Workspace).output ≠ old.output ∧
          (fun _ => true) old.output = false ∧ (['X'] : Str) = old.output)) :=
  C2_remembered_only_on_disconnected_transition (fun _ => true)
    [⟨7, ['A'], false, true⟩]
    (fun n => if n = 7 then some ⟨false, 7, ['A'], some ['X'], true⟩ else none)
    ⟨7, ['A'], false, true⟩ ⟨true, 7, ['A'], some ['X'], true⟩ ['X']
    (by decide) (by decide) (by decide) (by decide)

/-- C5: reconciliation never touches an entry whose workspace number is absent
from the processed snapshot; that entry, remembered output and focus flag
included, is exactly what it was before the pass. -/
theorem C5_absent_entries_untouched (conn : Str → Bool) (snapshot : List I3Workspace)
    (store : Int → Option Workspace) (n : Int)
    (habsent : n ∉ snapshot.map I3Workspace.num) :
    adjust_workspaces conn snapshot store n = store n := by
  apply adjust_frame
  intro v hv heq
  exact habsent (heq ▸ List.mem_map_of_mem I3Workspace.num hv)

theorem C5_witness :
    (2 : Int) ∉ ([⟨3, ['B'], true, false⟩] : List I3Workspace).map I3Workspace.num ∧
    adjust_workspaces (fun _ => false) [⟨3, ['B'], true, false⟩]
      (fun n => if n = 2 then some ⟨true, 2, ['A'], some ['C'], true⟩ else none) 2
      = (fun n => if n = (2 : Int) then some (⟨true, 2, ['A'], some ['C'], true⟩ : Workspace) else none) (2 : Int) :=
  ⟨by decide,
    C5_absent_entries_untouched (fun _ => false) [⟨3, ['B'], true, false⟩]
      (fun n => if n = 2 then some ⟨true, 2, ['A'], some ['C'], true⟩ else none) 2 (by decide)⟩

/-- C10: a newly set `remembered_output` is always the output stored by the
immediately preceding pass, overwriting any previously remembered output: on a
disconnected-output transition away from `old.output`, the entry remembers
`old.output` itself, not the older remembered output `r`. -/
theorem C10_one_hop_history (conn : Str → Bool) (snapshot : List I3Workspace)
    (store : Int → Option Workspace) (w : I3Workspace) (old : Workspace) (r : Str)
    (hnodup : (snapshot.map I3Workspace.num).Nodup) (hmem : w ∈ snapshot)
    (hold : store w.num = some old)
    (_hprev : old.previous_output = some r) (hr : r ≠ old.output)
    (hchange : w.output ≠ old.output) (hdisc : conn old.output = false) :
    adjust_workspaces conn snapshot store w.num =
      some { focused := w.focused || w.visible
             num := w.num
             output := w.output
             previous_output := some old.output
             was_focused := old.focused } ∧
    (some old.output : Option Str) ≠ some r := by
  constructor
  · rw [adjust_get_mem conn snapshot store w hnodup hmem]
    simp only [adjust_entry]
    unfold adjust_fields
    rw [hold]
    dsimp only
    rw [if_neg hchange, hdisc]
    simp
  · simp
    exact fun h => hr h.symm

/-- C3 counterexample: workspace 1 is stored on output B with remembered
output A; a snapshot reports it back on A while B probes disconnected; the
claim predicts the resulting `remembered_output` is `none`, but reconciliation
stores `some B`. -/
theorem C3_counterexample :
    (fun n => if n = (1 : Int) then some (⟨true, 1, ['B'], some ['A'], true⟩ : Workspace) else none) (1 : Int)
      = some (⟨true, 1, ['B'], some ['A'], true⟩ : Workspace) ∧
    (⟨1, ['A'], false, false⟩ : I3Workspace).output = ['A'] ∧
    (['A'] : Str) ≠ ['B'] ∧
    (adjust_workspaces (fun _ => false) [⟨1, ['A'], false, false⟩]
        (fun n => if n = 1 then some ⟨true, 1, ['B'], some ['A'], true⟩ else none) 1).map
        Workspace.previous_output = some (some ['B']) ∧
    (adjust_workspaces (fun _ => false) [⟨1, ['A'], false, false⟩]
        (fun n => if n = 1 then some ⟨true, 1, ['B'], some ['A'], true⟩ else none) 1).map
        Workspace.previous_output ≠ some none := by
  refine ⟨by decide, by decide, by decide, by decide, by decide⟩

/-- C3 (amended): once a reconcile observes a workspace back on its remembered
output (snapshot output equal to the remembered output and differing from the
stored current output), the resulting entry has `remembered_output = none`
provided the stored current output probes connected; when it probes
disconnected, the code remembers that stored current output instead. -/
theorem C3_cleared_when_old_output_connected (conn : Str → Bool)
    (snapshot : List I3Workspace) (store : Int → Option Workspace)
    (w : I3Workspace) (old : Workspace) (r : Str)
    (hnodup : (snapshot.map I3Workspace.num).Nodup) (hmem : w ∈ snapshot)
    (hold : store w.num = some old)
    (_hrem : old.previous_output = some r) (_hback : w.output = r)
    (hne : w.output ≠ old.output) (hconn : conn old.output = true) :
    adjust_workspaces conn snapshot store w.num =
      some { focused := w.focused || w.visible
             num := w.num
             output := w.output
             previous_output := none
             was_focused := false } := by
  rw [adjust_get_mem conn snapshot store w hnodup hmem]
  simp only [adjust_entry]
  unfold adjust_fields
  rw [hold]
  dsimp only
  rw [if_neg hne, hconn]
  simp

theorem C3_witness :
    (([⟨1, ['A'], false, false⟩] : List I3Workspace).map I3Workspace.num).Nodup ∧
    (fun n => if n = (1 : Int) then some (⟨true, 1, ['B'], some ['A'], true⟩ : Workspace) else none) (1 : Int)
      = some (⟨true, 1, ['B'], some ['A'], true⟩ : Workspace) ∧
    (some (['A'] : Str) : Option Str) = some ['A'] ∧
    (⟨1, ['A'], false, false⟩ : I3Workspace).output = ['A'] ∧
    (['A'] : Str) ≠ ['B'] ∧
    (fun s => s == (['B'] : Str)) (['B'] : Str) = true ∧
    adjust_workspaces (fun s => s == ['B']) [⟨1, ['A'], false, false⟩]
      (fun n => if n = 1 then some ⟨true, 1, ['B'], some ['A'], true⟩ else none) 1
      = some { focused := false || false, num := 1, output := ['A']
               previous_output := none
               was_focused := false } :=
  ⟨by decide, by decide, by decide, by decide, by decide, by decide,
    C3_cleared_when_old_output_connected (fun s => s == ['B']) [⟨1, ['A'], false, false⟩]
      (fun n => if n = 1 then some ⟨true, 1, ['B'], some ['A'], true⟩ else none)
      ⟨1, ['A'], false, false⟩ ⟨true, 1, ['B'], some ['A'], true⟩ ['A']
      (by decide) (by decide) (by decide) (by decide) (by decide) (by decide) (by decide)⟩

theorem adjust_fields_of_eq (conn : Str → Bool) (store : Int → Option Workspace)
    (w : I3Workspace) (old : Workspace) (hold : store w.num = some old)
    (h : w.output = old.output) :
    adjust_fields conn store w = (old.previous_output, old.was_focused) := by
  unfold adjust_fields
  rw [hold]
  dsimp only
  rw [if_pos h]

theorem carryEnd_previous_output (e : Workspace) (f : List I3Workspace) :
    (carryEnd e f).previous_output = e.previous_output := by
  unfold carryEnd
  cases f.getLast? <;> rfl

theorem carryEnd_was_focused (e : Workspace) (f : List I3Workspace) :
    (carryEnd e f).was_focused = e.was_focused := by
  unfold carryEnd
  cases f.getLast? <;> rfl

theorem getLast?_mem_of_eq_some {α : Type} (l : List α) (y : α)
    (h : l.getLast? = some y) : y ∈ l := by
  obtain ⟨hne, h2⟩ := List.mem_getLast?_eq_getLast (Option.mem_def.mpr h)
  rw [h2]
  exact List.getLast_mem hne

theorem carryEnd_cons (e : Workspace) (u : I3Workspace) (f : List I3Workspace) :
    carryEnd { focused := u.focused || u.visible
               num := u.num
               output := u.output
               previous_output := e.previous_output
               was_focused := e.was_focused } f
      = carryEnd e (u :: f) := by
  cases f with
  | nil => rfl
  | cons v f' =>
    unfold carryEnd
    rw [List.getLast?_cons_cons]
    obtain ⟨y, hy⟩ : ∃ y, (v :: f').getLast? = some y :=
      ⟨(v :: f').getLast (by simp), List.getLast?_eq_getLast_of_ne_nil (by simp)⟩
    rw [hy]

/-- Reconciliation reads and writes the entry at key `n` independently of the
rest of the store: two stores agreeing at `n` stay in agreement at `n`. -/
theorem adjust_congr_at (conn : Str → Bool) (f : List I3Workspace) (n : Int) :
    ∀ s1 s2 : Int → Option Workspace, s1 n = s2 n →
      adjust_workspaces conn f s1 n = adjust_workspaces conn f s2 n := by
  induction f with
  | nil => exact fun s1 s2 h => h
  | cons u f ih =>
    intro s1 s2 h
    apply ih
    by_cases hn : n = u.num
    · subst hn
      rw [adjust_step_self, adjust_step_self]
      exact congrArg some (adjust_entry_congr conn s1 s2 u h)
    · rw [adjust_step_ne conn s1 u n hn, adjust_step_ne conn s2 u n hn]
      exact h

/-- Dichotomy for a reconciliation run over records all keyed at `n`, started
from two entries agreeing on output and focus: either the two runs end equal
at `n`, or every record carried the output along and both runs end in the
carry shape. -/
theorem adjust_carry_dichotomy (conn : Str → Bool) (n : Int) :
    ∀ f : List I3Workspace, (∀ w ∈ f, w.num = n) →
      ∀ (s1 s2 : Int → Option Workspace) (e1 e2 : Workspace),
        s1 n = some e1 → s2 n = some e2 →
        e1.output = e2.output → e1.focused = e2.focused →
        (adjust_workspaces conn f s1 n = adjust_workspaces conn f s2 n) ∨
        ((∀ u ∈ f, u.output = e1.output) ∧
          adjust_workspaces conn f s1 n = some (carryEnd e1 f) ∧
          adjust_workspaces conn f s2 n = some (carryEnd e2 f)) := by
  intro f
  induction f with
  | nil =>
    intro _ s1 s2 e1 e2 h1 h2 _ _
    right
    refine ⟨by simp, ?_, ?_⟩
    · simpa [adjust_workspaces, carryEnd] using h1
    · simpa [adjust_workspaces, carryEnd] using h2
  | cons u f ih =>
    intro hall s1 s2 e1 e2 h1 h2 hout hfoc
    have hun : u.num = n := hall u (List.mem_cons_self _ _)
    have hall' : ∀ w ∈ f, w.num = n := fun w hw => hall w (List.mem_cons_of_mem u hw)
    have hst1 : adjust_step conn s1 u n = some (adjust_entry conn s1 u) := by
      have h := adjust_step_self conn s1 u
      rwa [hun] at h
    have hst2 : adjust_step conn s2 u n = some (adjust_entry conn s2 u) := by
      have h := adjust_step_self conn s2 u
      rwa [hun] at h
    by_cases hu : u.output = e1.output
    · have hf1 : adjust_fields conn s1 u = (e1.previous_output, e1.was_focused) := by
        unfold adjust_fields
        rw [hun, h1]
        dsimp only
        rw [if_pos hu]
      have hf2 : adjust_fields conn s2 u = (e2.previous_output, e2.was_focused) := by
        unfold adjust_fields
        rw [hun, h2]
        dsimp only
        rw [if_pos (hout ▸ hu)]
      have ht1 : adjust_entry conn s1 u =
          { focused := u.focused || u.visible
            num := u.num
            output := u.output
            previous_output := e1.previous_output
            was_focused := e1.was_focused } := by
        simp [adjust_entry, hf1]
      have ht2 : adjust_entry conn s2 u =
          { focused := u.focused || u.visible
            num := u.num
            output := u.output
            previous_output := e2.previous_output
            was_focused := e2.was_focused } := by
        simp [adjust_entry, hf2]
      rcases ih hall' (adjust_step conn s1 u) (adjust_step conn s2 u)
          (adjust_entry conn s1 u) (adjust_entry conn s2 u) hst1 hst2
          (by rw [ht1, ht2]) (by rw [ht1, ht2]) with h | ⟨hc, hr1, hr2⟩
      · exact Or.inl h
      · right
        refine ⟨?_, ?_, ?_⟩
        · intro v hv
          rcases List.mem_cons.mp hv with h | h
          · rw [h]; exact hu
          · have hvo := hc v h
            rw [ht1] at hvo
            rw [hvo]
            exact hu
        · show adjust_workspaces conn f (adjust_step conn s1 u) n = _
          rw [hr1, ht1, carryEnd_cons]
        · show adjust_workspaces conn f (adjust_step conn s2 u) n = _
          rw [hr2, ht2, carryEnd_cons]
    · have hu2 : ¬ u.output = e2.output := fun hh => hu (hout ▸ hh)
      have hfe : adjust_fields conn s1 u = adjust_fields conn s2 u := by
        unfold adjust_fields
        rw [hun, h1, h2]
        dsimp only
        rw [if_neg hu, if_neg hu2, hout, hfoc]
      have hte : adjust_entry conn s1 u = adjust_entry conn s2 u := by
        simp [adjust_entry, hfe]
      left
      show adjust_workspaces conn f (adjust_step conn s1 u) n =
        adjust_workspaces conn f (adjust_step conn s2 u) n
      apply adjust_congr_at
      rw [hst1, hst2, hte]

/-- The value reconciliation leaves at key `n` depends only on the snapshot
records keyed at `n`. -/
theorem adjust_localize (conn : Str → Bool) (n : Int) :
    ∀ (f : List I3Workspace) (store : Int → Option Workspace),
      adjust_workspaces conn f store n =
        adjust_workspaces conn (f.filter fun w => w.num == n) store n := by
  intro f
  induction f with
  | nil => intro store; rfl
  | cons u f ih =>
    intro store
    by_cases hn : u.num = n
    · have hfil : (u :: f).filter (fun w => w.num == n) =
          u :: f.filter (fun w => w.num == n) := by
        simp [List.filter_cons, hn]
      rw [hfil]
      exact ih (adjust_step conn store u)
    · have hfil : (u :: f).filter (fun w => w.num == n) =
          f.filter (fun w => w.num == n) := by
        simp [List.filter_cons, hn]
      rw [hfil]
      show adjust_workspaces conn f (adjust_step conn store u) n = _
      rw [ih (adjust_step conn store u)]
      exact adjust_congr_at conn _ n _ store
        (adjust_step_ne conn store u n fun hh => hn hh.symm)

/-- Reconciliation over records all keyed at `n` is idempotent at `n`. -/
theorem adjust_uniform_idem (conn : Str → Bool) (n : Int) :
    ∀ f : List I3Workspace, (∀ w ∈ f, w.num = n) →
      ∀ store : Int → Option Workspace,
        adjust_workspaces conn f (adjust_workspaces conn f store) n =
          adjust_workspaces conn f store n := by
  intro f
  induction f with
  | nil => intro _ store; rfl
  | cons u f ih =>
    intro hall store
    have hun : u.num = n := hall u (List.mem_cons_self _ _)
    have hall' : ∀ w ∈ f, w.num = n := fun w hw => hall w (List.mem_cons_of_mem u hw)
    show adjust_workspaces conn f
        (adjust_step conn
          (adjust_workspaces conn f (adjust_step conn store u)) u) n =
      adjust_workspaces conn f (adjust_step conn store u) n
    have hst1 : adjust_step conn
        (adjust_workspaces conn f (adjust_step conn store u)) u n =
        some (adjust_entry conn
          (adjust_workspaces conn f (adjust_step conn store u)) u) := by
      have h := adjust_step_self conn
        (adjust_workspaces conn f (adjust_step conn store u)) u
      rwa [hun] at h
    have hst2 : adjust_step conn store u n = some (adjust_entry conn store u) := by
      have h := adjust_step_self conn store u
      rwa [hun] at h
    rcases adjust_carry_dichotomy conn n f hall'
        (adjust_step conn (adjust_workspaces conn f (adjust_step conn store u)) u)
        (adjust_step conn store u)
        (adjust_entry conn (adjust_workspaces conn f (adjust_step conn store u)) u)
        (adjust_entry conn store u) hst1 hst2 rfl rfl with h | ⟨hc, _hr1, hr2⟩
    · exact h
    · have hAn : adjust_workspaces conn f (adjust_step conn store u) n =
          some (carryEnd (adjust_entry conn store u) f) := hr2
      have hout : u.output = (carryEnd (adjust_entry conn store u) f).output := by
        unfold carryEnd
        cases hl : f.getLast? with
        | none => rfl
        | some y =>
          have hy : y ∈ f := getLast?_mem_of_eq_some f y hl
          exact (hc y hy).symm
      have hft : adjust_fields conn
          (adjust_workspaces conn f (adjust_step conn store u)) u =
          ((adjust_entry conn store u).previous_output,
            (adjust_entry conn store u).was_focused) := by
        have h0 : adjust_fields conn
            (adjust_workspaces conn f (adjust_step conn store u)) u =
            ((carryEnd (adjust_entry conn store u) f).previous_output,
              (carryEnd (adjust_entry conn store u) f).was_focused) := by
          unfold adjust_fields
          rw [hun, hAn]
          dsimp only
          rw [if_pos hout]
        rw [h0, carryEnd_previous_output, carryEnd_was_focused]
      have hte : adjust_entry conn
          (adjust_workspaces conn f (adjust_step conn store u)) u =
          adjust_entry conn store u := by
        simp only [adjust_entry, hft]
      apply adjust_congr_at
      rw [hst1, hst2, hte]

/-- C4: reconciliation is idempotent: for every store and every snapshot, a
second pass with the same snapshot and the same probe results leaves the
store exactly as the first pass did. -/
theorem C4_idempotent (conn : Str → Bool) (snapshot : List I3Workspace)
    (store : Int → Option Workspace) :
    adjust_workspaces conn snapshot (adjust_workspaces conn snapshot store) =
      adjust_workspaces conn snapshot store := by
  funext n
  have hall : ∀ w ∈ snapshot.filter (fun w => w.num == n), w.num = n := by
    intro w hw
    exact eq_of_beq (List.mem_filter.mp hw).2
  calc adjust_workspaces conn snapshot (adjust_workspaces conn snapshot store) n
      = adjust_workspaces conn (snapshot.filter fun w => w.num == n)
          (adjust_workspaces conn snapshot store) n :=
        adjust_localize conn n snapshot _
    _ = adjust_workspaces conn (snapshot.filter fun w => w.num == n)
          (adjust_workspaces conn (snapshot.filter fun w => w.num == n) store) n :=
        adjust_congr_at conn _ n _ _ (adjust_localize conn n snapshot store)
    _ = adjust_workspaces conn (snapshot.filter fun w => w.num == n) store n :=
        adjust_uniform_idem conn n _ hall store
    _ = adjust_workspaces conn snapshot store n :=
        (adjust_localize conn n snapshot store).symm

/-- C6: in the replay sequence, when the pre-change focused workspace is still
in the pre-change existing-workspace set and some tracked workspace's restored
focus command is issued as well, the last focus command issued targets the
pre-change focused workspace. -/
theorem C6_final_focus_wins (conn : Str → Bool) (entries : List Workspace)
    (existing : List Int) (n : Int)
    (hex : existing.contains n = true)
    (_htracked : ∃ w ∈ entries, w.was_focused = true ∧ existing.contains w.num = true) :
    (focus_targets (replay conn entries existing (some n))).getLast? = some n := by
  unfold replay focus_targets
  have hfin : final_focus existing (some n) = [ReplayCmd.focus n] := by
    unfold final_focus
    dsimp only
    rw [if_pos hex]
  rw [hfin, List.filterMap_append, List.filterMap_append]
  rw [List.append_assoc]
  have : List.filterMap
      (fun c => match c with
        | ReplayCmd.focus n => some n
        | ReplayCmd.move _ _ => none) [ReplayCmd.focus n] = [n] := rfl
  rw [this]
  rw [← List.append_assoc]
  exact List.getLast?_concat _

theorem C6_witness :
    ([1, 2] : List Int).contains (2 : Int) = true ∧
    (∃ w ∈ ([⟨true, 1, ['B'], some ['A'], true⟩] : List Workspace),
      w.was_focused = true ∧ ([1, 2] : List Int).contains w.num = true) ∧
    (focus_targets (replay (fun _ => true)
        [⟨true, 1, ['B'], some ['A'], true⟩] [1, 2] (some 2))).getLast? = some 2 :=
  ⟨by decide, by decide,
    C6_final_focus_wins (fun _ => true) [⟨true, 1, ['B'], some ['A'], true⟩] [1, 2] 2
      (by decide) ⟨⟨true, 1, ['B'], some ['A'], true⟩, by decide, by decide, by decide⟩⟩

theorem go_primary_names_of_set (p : Str) (mp : Option MonitorPos) (l : List MonitorData) :
    primary_names (build_cmds_go p mp true l) =
      (l.filter fun m => m.connected && m.name == p).map MonitorData.name := by
  induction l with
  | nil => rfl
  | cons m rest ih =>
    unfold build_cmds_go
    cases hc : m.connected
    · simp only [hc, Bool.false_eq_true, if_false, List.filter_cons, Bool.false_and,
        primary_names, List.filter_cons_of_neg]
      exact ih
    · simp only [hc, if_true, Bool.not_true, Bool.or_false, Bool.true_or, Bool.true_and,
        List.filter_cons, primary_names, List.filter_cons]
      cases hn : m.name == p
      · simpa [primary_names, hn] using ih
      · simpa [primary_names, hn] using congrArg (List.cons m.name) ih

theorem go_primary_names_of_unset (p : Str) (mp : Option MonitorPos) (l : List MonitorData)
    (h : ∀ m ∈ l, m.connected = true → (m.name == p) = false) :
    primary_names (build_cmds_go p mp false l) =
      (match l.find? MonitorData.connected with
        | some m => [m.name]
        | none => []) := by
  induction l with
  | nil => rfl
  | cons m rest ih =>
    unfold build_cmds_go
    cases hc : m.connected
    · have hrest : ∀ u ∈ rest, u.connected = true → (u.name == p) = false :=
        fun u hu => h u (List.mem_cons_of_mem m hu)
      simp only [hc, Bool.false_eq_true, if_false]
      rw [List.find?_cons_of_neg _ (by simp [hc])]
      simpa [primary_names, List.filter_cons] using ih hrest
    · have hrest0 : rest.filter (fun u => u.connected && u.name == p) = [] := by
        rw [List.filter_eq_nil_iff]
        intro u hu
        cases hcu : u.connected
        · simp [hcu]
        · simp [hcu, h u (List.mem_cons_of_mem m hu) hcu]
      simp only [hc, if_true, Bool.not_false, Bool.or_true, Bool.false_or,
        primary_names, List.filter_cons, List.find?_cons_of_pos _ hc]
      have := go_primary_names_of_set p mp rest
      simp only [primary_names] at this
      simp [this, hrest0]

theorem go_primary_enabled (p : Str) (mp : Option MonitorPos) (ps : Bool)
    (l : List MonitorData) :
    ∀ c ∈ build_cmds_go p mp ps l, c.primary = true → c.enabled = true := by
  induction l generalizing ps with
  | nil => intro c hc; simp [build_cmds_go] at hc
  | cons m rest ih =>
    intro c hc hp
    unfold build_cmds_go at hc
    cases hcm : m.connected
    · rw [hcm] at hc
      simp only [Bool.false_eq_true, if_false] at hc
      rcases List.mem_cons.mp hc with h | h
      · subst h; simp at hp
      · exact ih ps c h hp
    · rw [hcm] at hc
      simp only [if_true] at hc
      rcases List.mem_cons.mp hc with h | h
      · subst h; rfl
      · exact ih _ c h hp

theorem eq_singleton_of_nodup_all_eq (p : Str) (xs : List Str)
    (hnodup : xs.Nodup) (hne : xs ≠ []) (hall : ∀ x ∈ xs, x = p) : xs = [p] := by
  cases xs with
  | nil => exact absurd rfl hne
  | cons x rest =>
    have hx : x = p := hall x (List.mem_cons_self x rest)
    have hrest : rest = [] := by
      rw [List.eq_nil_iff_forall_not_mem]
      intro y hy
      have hyp : y = p := hall y (List.mem_cons_of_mem x hy)
      exact (List.nodup_cons.mp hnodup).1 (hx ▸ hyp ▸ hy)
    rw [hx, hrest]

/-- C7: for every probe result with at least one connected output (and
pairwise distinct output names), exactly one output receives the `--primary`
mark: the configured primary monitor when it is connected, otherwise the first
connected output in enumeration order; and a `--primary` mark only ever
appears in an enabled (`--auto`, i.e. connected) group, never in an `--off`
group. -/
theorem C7_unique_primary_mark (p : Str) (mp : Option MonitorPos)
    (monitor_data : List MonitorData)
    (hconn : monitor_data.any MonitorData.connected = true)
    (hnodup : (monitor_data.map MonitorData.name).Nodup) :
    (∃ first, monitor_data.find? MonitorData.connected = some first ∧
      first.connected = true ∧
      primary_names (build_monitor_cmds p mp monitor_data) =
        [if primary_connected p monitor_data then p else first.name] ∧
      (primary_connected p monitor_data = true →
        ∃ mo ∈ monitor_data, mo.name = p ∧ mo.connected = true)) ∧
    (∀ c ∈ build_monitor_cmds p mp monitor_data, c.primary = true → c.enabled = true) := by
  have hfind : (monitor_data.find? MonitorData.connected).isSome := by
    rw [List.find?_isSome]
    obtain ⟨m, hm, hc⟩ := List.any_eq_true.mp hconn
    exact ⟨m, hm, hc⟩
  obtain ⟨first, hfirst⟩ := Option.isSome_iff_exists.mp hfind
  refine ⟨⟨first, hfirst, List.find?_some hfirst, ?_, ?_⟩, ?_⟩
  · unfold build_monitor_cmds
    cases hpc : primary_connected p monitor_data
    · simp only [Bool.false_eq_true, if_false]
      have hnone : ∀ m ∈ monitor_data, m.connected = true → (m.name == p) = false := by
        intro m hm hc
        unfold primary_connected at hpc
        rw [List.any_eq_false] at hpc
        have hm2 := hpc m hm
        cases hmp : (m.name == p)
        · rfl
        · exfalso
          apply hm2
          have hpm : p = m.name := (eq_of_beq hmp).symm
          simp [hpm, hc]
      rw [go_primary_names_of_unset p mp monitor_data hnone, hfirst]
    · simp only [if_true]
      rw [go_primary_names_of_set p mp monitor_data]
      apply eq_singleton_of_nodup_all_eq
      · have hsub : (monitor_data.filter fun m => m.connected && m.name == p).Sublist monitor_data :=
          List.filter_sublist monitor_data
        exact (hsub.map MonitorData.name).nodup hnodup
      · unfold primary_connected at hpc
        obtain ⟨m, hm, hmc⟩ := List.any_eq_true.mp hpc
        simp only [Bool.and_eq_true, beq_iff_eq] at hmc
        have hmem : m ∈ monitor_data.filter fun u => u.connected && u.name == p := by
          rw [List.mem_filter]
          exact ⟨hm, by simp [hmc.2, show m.name = p from hmc.1.symm]⟩
        exact List.ne_nil_of_mem (List.mem_map_of_mem MonitorData.name hmem)
      · intro x hx
        obtain ⟨m, hm, rfl⟩ := List.mem_map.mp hx
        have hmf := (List.mem_filter.mp hm).2
        simp only [Bool.and_eq_true, beq_iff_eq] at hmf
        exact hmf.2
  · intro hpc
    unfold primary_connected at hpc
    obtain ⟨m, hm, hmc⟩ := List.any_eq_true.mp hpc
    simp only [Bool.and_eq_true, beq_iff_eq] at hmc
    exact ⟨m, hm, hmc.1.symm, hmc.2⟩
  · exact go_primary_enabled p mp _ monitor_data

theorem C7_witness :
    ([⟨['A'], false⟩, ⟨['B'], true⟩, ⟨['C'], true⟩] : List MonitorData).any MonitorData.connected = true ∧
    (([⟨['A'], false⟩, ⟨['B'], true⟩, ⟨['C'], true⟩] : List MonitorData).map MonitorData.name).Nodup ∧
    ((∃ first, ([⟨['A'], false⟩, ⟨['B'], true⟩, ⟨['C'], true⟩] : List MonitorData).find? MonitorData.connected = some first ∧
      first.connected = true ∧
      primary_names (build_monitor_cmds ['C'] none [⟨['A'], false⟩, ⟨['B'], true⟩, ⟨['C'], true⟩]) =
        [if primary_connected ['C'] [⟨['A'], false⟩, ⟨['B'], true⟩, ⟨['C'], true⟩] then ['C'] else first.name] ∧
      (primary_connected ['C'] [⟨['A'], false⟩, ⟨['B'], true⟩, ⟨['C'], true⟩] = true →
        ∃ mo ∈ ([⟨['A'], false⟩, ⟨['B'], true⟩, ⟨['C'], true⟩] : List MonitorData),
          mo.name = ['C'] ∧ mo.connected = true)) ∧
    (∀ c ∈ build_monitor_cmds ['C'] none [⟨['A'], false⟩, ⟨['B'], true⟩, ⟨['C'], true⟩],
      c.primary = true → c.enabled = true)) :=
  ⟨by decide, by decide,
    C7_unique_primary_mark ['C'] none [⟨['A'], false⟩, ⟨['B'], true⟩, ⟨['C'], true⟩]
      (by decide) (by decide)⟩

theorem split_on_colon_cons (c : Char) (rest : Str) :
    split_on_colon (c :: rest) =
      if c = ':' then [] :: split_on_colon rest
      else match split_on_colon rest with
        | [] => [[c]]
        | p :: ps => (c :: p) :: ps := rfl

theorem split_on_colon_ne_nil (l : Str) : split_on_colon l ≠ [] := by
  cases l with
  | nil => simp [split_on_colon]
  | cons c rest =>
    rw [split_on_colon_cons]
    by_cases h : c = ':'
    · simp [h]
    · rw [if_neg h]
      cases hs : split_on_colon rest <;> simp

theorem split_on_colon_no_colon (l : Str) (h : ':' ∉ l) : split_on_colon l = [l] := by
  induction l with
  | nil => rfl
  | cons c rest ih =>
    have hc : ¬ c = ':' := by
      intro hh
      subst hh
      exact h (List.mem_cons_self _ _)
    have hrest : ':' ∉ rest := fun hh => h (List.mem_cons_of_mem c hh)
    rw [split_on_colon_cons, if_neg hc, ih hrest]

theorem split_on_colon_append (pre post : Str) (h : ':' ∉ pre) :
    split_on_colon (pre ++ ':' :: post) = pre :: split_on_colon post := by
  induction pre with
  | nil => simp [split_on_colon_cons]
  | cons c pre' ih =>
    have hc : ¬ c = ':' := by
      intro hh
      subst hh
      exact h (List.mem_cons_self _ _)
    have hpre : ':' ∉ pre' := fun hh => h (List.mem_cons_of_mem c hh)
    rw [List.cons_append, split_on_colon_cons, if_neg hc, ih hpre]

theorem split_on_colon_head (l : Str) :
    ∃ ps, split_on_colon l = (l.takeWhile fun c => !(c == ':')) :: ps := by
  induction l with
  | nil => exact ⟨[], rfl⟩
  | cons c rest ih =>
    by_cases hc : c = ':'
    · subst hc
      refine ⟨split_on_colon rest, ?_⟩
      rw [split_on_colon_cons, if_pos rfl]
      simp [List.takeWhile_cons]
    · obtain ⟨ps, hps⟩ := ih
      refine ⟨ps, ?_⟩
      rw [split_on_colon_cons, if_neg hc, hps]
      simp [List.takeWhile_cons, hc]

theorem split_on_colon_length_ge (l : Str) (h : ':' ∈ l) :
    2 ≤ (split_on_colon l).length := by
  induction l with
  | nil => simp at h
  | cons c rest ih =>
    rw [split_on_colon_cons]
    by_cases hc : c = ':'
    · rw [if_pos hc]
      have hne := split_on_colon_ne_nil rest
      cases hs : split_on_colon rest with
      | nil => exact absurd hs hne
      | cons p ps => simp
    · rw [if_neg hc]
      have hrest : ':' ∈ rest := by
        rcases List.mem_cons.mp h with h1 | h1
        · exact absurd h1.symm hc
        · exact h1
      have h2 := ih hrest
      cases hs : split_on_colon rest with
      | nil => exact absurd hs (split_on_colon_ne_nil rest)
      | cons p ps =>
        rw [hs] at h2
        simpa using h2

/-- C8 counterexample: the input `"a:b c:d"` contains a ':'; the text after
the first ':' is `"b c:d"`, whose whitespace-split is `["b", "c:d"]` — the
arguments the claim predicts — but parse takes only the segment up to the
second ':' and returns `["b", "c"]`. -/
theorem C8_counterexample :
    (['a', ':', 'b', ' ', 'c', ':', 'd'] : Str) = ['a'] ++ ':' :: ['b', ' ', 'c', ':', 'd'] ∧
    ':' ∉ (['a'] : Str) ∧
    split_ascii_ws ['b', ' ', 'c', ':', 'd'] = [['b'], ['c', ':', 'd']] ∧
    (MonitorPos.parse ['a', ':', 'b', ' ', 'c', ':', 'd']).map MonitorPos.args
      = some [['b'], ['c']] ∧
    (MonitorPos.parse ['a', ':', 'b', ' ', 'c', ':', 'd']).map MonitorPos.args
      ≠ some (split_ascii_ws ['b', ' ', 'c', ':', 'd']) := by
  refine ⟨by decide, by decide, by decide, by decide, by decide⟩

/-- C8 (amended): parse fails exactly when the input has no ':'; for an input
with at least one ':', the name is the text before the first ':' and the
arguments are the whitespace-split of the text between the first and the
second ':' (to the end when there is no second ':'); text from the second ':'
on is discarded. -/
theorem C8_parse_amended :
    (∀ data : Str, MonitorPos.parse data = none ↔ ':' ∉ data) ∧
    (∀ pre post : Str, ':' ∉ pre →
      MonitorPos.parse (pre ++ ':' :: post) =
        some { name := pre
               args := split_ascii_ws (post.takeWhile fun c => !(c == ':')) }) := by
  constructor
  · intro data
    constructor
    · intro hnone hmem
      have h2 := split_on_colon_length_ge data hmem
      unfold MonitorPos.parse at hnone
      cases hs : split_on_colon data with
      | nil => exact split_on_colon_ne_nil data hs
      | cons a rest =>
        cases rest with
        | nil =>
          rw [hs] at h2
          simp at h2
        | cons b rest' =>
          rw [hs] at hnone
          simp at hnone
    · intro hnot
      unfold MonitorPos.parse
      rw [split_on_colon_no_colon data hnot]
  · intro pre post h
    unfold MonitorPos.parse
    rw [split_on_colon_append pre post h]
    obtain ⟨ps, hps⟩ := split_on_colon_head post
    rw [hps]

theorem C8_witness :
    ':' ∉ (['x'] : Str) ∧
    MonitorPos.parse (['x'] ++ ':' :: ['y', ' ', 'z']) =
      some { name := ['x']
             args := split_ascii_ws ((['y', ' ', 'z'] : Str).takeWhile fun c => !(c == ':')) } ∧
    (MonitorPos.parse [] = none ↔ ':' ∉ ([] : Str)) :=
  ⟨by decide, C8_parse_amended.2 ['x'] ['y', ' ', 'z'] (by decide), C8_parse_amended.1 []⟩

/-- C9: the probe is total and safe under query failure — a failed query
yields not-connected for every name — and reports connected exactly when the
named output is enumerated and carries an EDID block. -/
theorem C9_monitor_connected_safe :
    (∀ (e : Str) (name : Str), monitor_connected (Except.error e) name = false) ∧
    (∀ (query : Except Str (List XOutput)) (name : Str),
      monitor_connected query name = true ↔
        ∃ output ∈ xrandr_outputs query, output.name = name ∧ output.edid.isSome = true) := by
  constructor
  · intro e name
    rfl
  · intro query name
    simp [monitor_connected, List.any_eq_true]

theorem C10_witness :
    (([⟨1, ['C'], false, false⟩] : List I3Workspace).map I3Workspace.num).Nodup ∧
    (fun n => if n = (1 : Int) then some (⟨true, 1, ['B'], some ['A'], true⟩ : Workspace) else none) (1 : Int)
      = some (⟨true, 1, ['B'], some ['A'], true⟩ : Workspace) ∧
    (['A'] : Str) ≠ ['B'] ∧ (['C'] : Str) ≠ ['B'] ∧
    (adjust_workspaces (fun _ => false) [⟨1, ['C'], false, false⟩]
        (fun n => if n = 1 then some ⟨true, 1, ['B'], some ['A'], true⟩ else none) 1
      = some { focused := false || false, num := 1, output := ['C']
               previous_output := some ['B']
               was_focused := true } ∧
      (some (['B'] : Str) : Option Str) ≠ some ['A']) :=
  ⟨by decide, by decide, by decide, by decide,
    C10_one_hop_history (fun _ => false) [⟨1, ['C'], false, false⟩]
      (fun n => if n = 1 then some ⟨true, 1, ['B'], some ['A'], true⟩ else none)
      ⟨1, ['C'], false, false⟩ ⟨true, 1, ['B'], some ['A'], true⟩ ['A']
      (by decide) (by decide) (by decide) (by decide) (by decide) (by decide) (by decide)⟩
